import Mathlib

/-!
Verification of the parallel mergesort program (src/main.c).

The program forks itself recursively: the root reads all lines from stdin,
splits them in two contiguous halves, pipes each half to a child copy of
itself, and merges the two sorted result streams with a one-slot look-ahead
state machine (`mergesort` over `cmp_lock`).

This file is a shallow embedding of that program:
  * a `Line` is the raw byte content of one record as read by `getline`,
    including its trailing newline character when the stream carried one;
    comparisons are the lexicographic order `strcmp` computes;
  * a pipe stream is a `List Line`; reading a line takes the head, and a
    failing `getline` (empty stream) models `readline`'s error path;
  * a process phase is summarised by a `RunResult`: the lines it wrote to
    stdout, plus the diagnostic of `error_exit` when it exited with
    `EXIT_FAILURE` (`err = none` models `EXIT_SUCCESS`);
  * the `while` loop of `mergesort` is embedded with an explicit fuel
    parameter; every iteration consumes at least one stream element, so
    fuel `|s1| + |s2| + 1` (used by the wrapper) never runs out.
-/

/-- One text record, as stored by `getline`: the raw characters including a
trailing `'\n'` when the stream had one. `strcmp`'s ordering is the
lexicographic order on these character lists. -/
abbrev Line := List Char

/-- Model of `print` (main.c lines 58-64), step 1: strip the trailing newline
if one is present. The C code inspects `line[len - 1]`; for a line read by
`getline` the length is always at least 1. -/
def stripNL (s : Line) : Line :=
  if s.getLast? = some '\n' then s.dropLast else s

/-- Model of `print` (main.c lines 58-64): the line that `printf("%s\n", ...)`
actually places on stdout, i.e. the newline-stripped line re-terminated. -/
def print (s : Line) : Line := stripNL s ++ ['\n']

/-- Diagnostic written by `readline` (main.c lines 46-51) when `getline`
returns -1 before the expected number of lines was delivered. -/
def readErrMsg : String := "Could not read line"

/-- Marker for the model's fuel running out; unreachable from `generalMerge`,
whose fuel exceeds the total stream length. -/
def fuelMsg : String := "model fuel exhausted"

/-- Observable outcome of one process phase: lines written to stdout, and the
`error_exit` diagnostic when the process died with `EXIT_FAILURE`
(`err = none` models a normal `EXIT_SUCCESS` end). -/
structure RunResult where
  out : List Line
  err : Option String
deriving DecidableEq

/-- Result of one `cmp_lock` call: the line it `print`ed, and the new values
of `*lock`, `*processed_c1`, `*processed_c2`. -/
structure CmpOut where
  emitted : Line
  lock : Nat
  p1 : Nat
  p2 : Nat
deriving DecidableEq

/-- Model of `cmp_lock` (main.c lines 86-122). The switch cases are written
out separately as in the C: in case 1 the `else` branch leaves the lock at 1,
in case 2 the `then` branch leaves it at 2, so all three cases set the lock
to 2 when the left line is emitted and to 1 when the right line is emitted.
The default branch (`lock > 2`) calls `error_exit`, modelled as `none`. -/
def cmp_lock (left right : Line) (lock p1 p2 : Nat) : Option CmpOut :=
  match lock with
  | 0 =>
    some (if left < right then ⟨print left, 2, p1 + 1, p2⟩
          else ⟨print right, 1, p1, p2 + 1⟩)
  | 1 =>
    some (if left < right then ⟨print left, 2, p1 + 1, p2⟩
          else ⟨print right, 1, p1, p2 + 1⟩)
  | 2 =>
    some (if left < right then ⟨print left, 2, p1 + 1, p2⟩
          else ⟨print right, 1, p1, p2 + 1⟩)
  | _ => none

/-- The `switch (lock)` read step at the top of the merge loop (main.c lines
191-207): which stream(s) `readline` is called on, the resulting values of
the `left`/`right` variables, and the streams' remainders. An empty stream
models `getline` failing, which `readline` turns into `error_exit`. -/
def readPhase (lock : Nat) (left right : Line) (s1 s2 : List Line) :
    Except String (Line × Line × List Line × List Line) :=
  match lock with
  | 0 =>
    match s1 with
    | [] => .error readErrMsg
    | l :: s1' =>
      match s2 with
      | [] => .error readErrMsg
      | r :: s2' => .ok (l, r, s1', s2')
  | 1 =>
    match s2 with
    | [] => .error readErrMsg
    | r :: s2' => .ok (left, r, s1, s2')
  | 2 =>
    match s1 with
    | [] => .error readErrMsg
    | l :: s1' => .ok (l, right, s1', s2)
  | _ => .error "lock cannot be > 2"

/-- The merge state at normal exit of the `while` loop, i.e. on reaching
main.c line 212: output so far, lock, both processed counters, number of
completed loop iterations, current `left`/`right` variables, and the unread
remainders of both streams. -/
structure LoopExit where
  out : List Line
  lock : Nat
  p1 : Nat
  p2 : Nat
  iters : Nat
  left : Line
  right : Line
  rest1 : List Line
  rest2 : List Line
deriving DecidableEq

/-- The `while` loop of `mergesort` (main.c lines 190-209), with an explicit
fuel bound on the number of iterations still examined. Each iteration checks
`processed_c1 != wr_count1 && processed_c2 != wr_count2`, performs the
`switch(lock)` reads, then calls `cmp_lock`. Every iteration consumes at
least one element of `s1 ++ s2`, so with fuel `> |s1| + |s2|` the fuel
branch is never taken. -/
def mergeLoopGo (c1 c2 : Nat) : Nat → Nat → Nat → Nat → Nat → Line → Line →
    List Line → List Line → List Line → Except (List Line × String) LoopExit
  | 0, _, _, _, _, _, _, _, _, out => .error (out, fuelMsg)
  | fuel + 1, lock, p1, p2, iters, left, right, s1, s2, out =>
    if p1 ≠ c1 ∧ p2 ≠ c2 then
      match readPhase lock left right s1 s2 with
      | .error msg => .error (out, msg)
      | .ok (left', right', s1', s2') =>
        match cmp_lock left' right' lock p1 p2 with
        | none => .error (out, "buffstate cannot be > 2")
        | some c =>
          mergeLoopGo c1 c2 fuel c.lock c.p1 c.p2 (iters + 1) left' right'
            s1' s2' (out ++ [c.emitted])
    else
      .ok ⟨out, lock, p1, p2, iters, left, right, s1, s2⟩

/-- One of the two final read-and-print `for` loops (main.c lines 226-236):
`k` is the number of lines still owed by the stream (`wr_count - processed`);
running out of stream mid-way is `readline`'s fatal error. -/
def drain (k : Nat) (s : List Line) (out : List Line) : RunResult :=
  match k, s with
  | 0, _ => ⟨out, none⟩
  | _ + 1, [] => ⟨out, some readErrMsg⟩
  | k + 1, x :: s => drain k s (out ++ [print x])

/-- The pair of guarded drain loops (main.c lines 226-236): drain side 1 if
its count is not yet reached, otherwise side 2 if its count is not reached.
The subtraction mirrors the `for (i = processed; i < count; i++)` bound. -/
def drainPhase (c1 c2 p1 p2 : Nat) (out : List Line) (s1 s2 : List Line) :
    RunResult :=
  if p1 ≠ c1 then drain (c1 - p1) s1 out
  else if p2 ≠ c2 then drain (c2 - p2) s2 out
  else ⟨out, none⟩

/-- The post-loop `switch (lock)` (main.c lines 212-223) that prints the
buffered line and bumps its counter, followed by the drain loops. The
default branch (`lock` 0 or > 2) is `error_exit("lock cannot be 0 or > 2")`. -/
def mergePost (c1 c2 : Nat) (e : LoopExit) : RunResult :=
  match e.lock with
  | 1 => drainPhase c1 c2 (e.p1 + 1) e.p2 (e.out ++ [print e.left]) e.rest1 e.rest2
  | 2 => drainPhase c1 c2 e.p1 (e.p2 + 1) (e.out ++ [print e.right]) e.rest1 e.rest2
  | _ => ⟨e.out, some "lock cannot be 0 or > 2"⟩

/-- The merge run from an arbitrary loop state: the `while` loop followed, on
normal exit, by the post-loop switch and drain. -/
def runFrom (c1 c2 fuel lock p1 p2 iters : Nat) (left right : Line)
    (s1 s2 out : List Line) : RunResult :=
  match mergeLoopGo c1 c2 fuel lock p1 p2 iters left right s1 s2 out with
  | .error (o, msg) => ⟨o, some msg⟩
  | .ok e => mergePost c1 c2 e

/-- The general state-machine merge of `mergesort` (main.c lines 190-236),
started from the initial state of the function: `lock = 0`, both counters 0,
`left` and `right` still NULL (modelled as `[]`; they are overwritten before
first use). Fuel `|s1| + |s2| + 1` can never run out. -/
def generalMerge (c1 c2 : Nat) (s1 s2 : List Line) : RunResult :=
  runFrom c1 c2 (s1.length + s2.length + 1) 0 0 0 0 [] [] s1 s2 []

/-- Model of `mergesort` (main.c lines 156-243): `c1`/`c2` are `wr_count1`/
`wr_count2`, `s1`/`s2` the streams behind `fd1`/`fd2`. The
`wr_count1 == 1 && wr_count2 == 1` special case (lines 170-188) reads one
line from each side, compares once and emits both; otherwise the general
loop runs. -/
def mergesort (c1 c2 : Nat) (s1 s2 : List Line) : RunResult :=
  if c1 = 1 ∧ c2 = 1 then
    match s1 with
    | [] => ⟨[], some readErrMsg⟩
    | l :: _ =>
      match s2 with
      | [] => ⟨[], some readErrMsg⟩
      | r :: _ =>
        if l < r then ⟨[print l, print r], none⟩
        else ⟨[print r, print l], none⟩
  else generalMerge c1 c2 s1 s2

/-- The split performed by `main` (main.c lines 341-347 and 384-390): the
first child is fed `lines[0 .. numlines/2 - 1]` in order (so
`wr_count1 = numlines / 2`), the second child the remaining
`lines[numlines/2 .. numlines - 1]` in order. -/
def splitLines (lines : List Line) : List Line × List Line :=
  (lines.take (lines.length / 2), lines.drop (lines.length / 2))

/-- One whole process of the recursive program tree, as a function of the
lines it ingests (main.c `main`, lines 245-413), with fuel bounding the
recursion depth (`none` = no result within that depth, modelling the
unbounded process recursion). With `numlines == 1` the single stored line is
emitted verbatim by `fprintf(stdout, "%s", lines[0])` (lines 279-282);
otherwise the halves are piped to two recursive copies, both children are
waited for (lines 402-408, any failure is fatal), and their output streams
are merged by `mergesort` with the written counts. -/
def forksortRun : Nat → List Line → Option RunResult
  | 0, _ => none
  | fuel + 1, lines =>
    match lines with
    | [l] => some ⟨[l], none⟩
    | _ =>
      match forksortRun fuel (splitLines lines).1,
            forksortRun fuel (splitLines lines).2 with
      | some r1, some r2 =>
        if r1.err = none ∧ r2.err = none then
          some (mergesort (splitLines lines).1.length (splitLines lines).2.length
            r1.out r2.out)
        else some ⟨[], some "Error occured during waiting for child"⟩
      | _, _ => none

/-- Growth step of the `lines` array (`#define STEPSIZE 10`). -/
def STEPSIZE : Nat := 10

/-- One iteration of the stdin ingestion loop (main.c lines 261-277) in terms
of the state `(numlines, arrlen, oob)`: the line pointer is stored at
`lines[numlines]` (an out-of-bounds store iff `arrlen ≤ numlines`, recorded
in the flag), then the capacity is grown if `numlines == arrlen`, then
`numlines` is incremented. -/
def ingestStep : Nat × Nat × Bool → Nat × Nat × Bool
  | (numlines, arrlen, oob) =>
    let oob' := oob || decide (arrlen ≤ numlines)
    let arrlen' := if numlines = arrlen then arrlen + STEPSIZE else arrlen
    (numlines + 1, arrlen', oob')

/-- Ingestion state after reading `n` lines, starting from
`numlines = 0, arrlen = STEPSIZE` (main.c lines 255-257). -/
def ingest (n : Nat) : Nat × Nat × Bool := ingestStep^[n] (0, STEPSIZE, false)

/-- Reference two-way merge on whole lists: emit the left head when it is
strictly smaller, otherwise the right head (the tie-breaking of
`strcmp(left, right) < 0`). Used to state what the streaming merge
computes. -/
def refMerge : List Line → List Line → List Line
  | [], ys => ys
  | x :: xs, [] => x :: xs
  | x :: xs, y :: ys =>
    if x < y then x :: refMerge xs (y :: ys) else y :: refMerge (x :: xs) ys
termination_by xs ys => xs.length + ys.length

lemma refMerge_perm : ∀ xs ys : List Line, (refMerge xs ys).Perm (xs ++ ys) := by
  intro xs ys
  induction xs, ys using refMerge.induct with
  | case1 ys => simp [refMerge]
  | case2 x xs => simp [refMerge]
  | case3 x xs y ys hlt ih => simpa [refMerge, hlt] using ih.cons x
  | case4 x xs y ys hlt ih =>
    simp only [refMerge, if_neg hlt]
    exact (ih.cons y).trans List.perm_middle.symm

lemma refMerge_sorted : ∀ xs ys : List Line, xs.Sorted (· ≤ ·) →
    ys.Sorted (· ≤ ·) → (refMerge xs ys).Sorted (· ≤ ·) := by
  intro xs ys
  induction xs, ys using refMerge.induct with
  | case1 ys => simp [refMerge]
  | case2 x xs => simp [refMerge]
  | case3 x xs y ys hlt ih =>
    intro hx hy
    rw [List.sorted_cons] at hx
    simp only [refMerge, if_pos hlt, List.sorted_cons]
    refine ⟨fun b hb => ?_, ih hx.2 hy⟩
    rcases List.mem_append.mp ((refMerge_perm xs (y :: ys)).mem_iff.mp hb) with
      hmem | hmem
    · exact hx.1 b hmem
    · rcases List.mem_cons.mp hmem with rfl | hmem'
      · exact le_of_lt hlt
      · exact (le_of_lt hlt).trans ((List.sorted_cons.mp hy).1 b hmem')
  | case4 x xs y ys hlt ih =>
    intro hx hy
    rw [List.sorted_cons] at hy
    simp only [refMerge, if_neg hlt, List.sorted_cons]
    refine ⟨fun b hb => ?_, ih hx hy.2⟩
    rcases List.mem_append.mp ((refMerge_perm (x :: xs) ys).mem_iff.mp hb) with
      hmem | hmem
    · rcases List.mem_cons.mp hmem with rfl | hmem'
      · exact not_lt.mp hlt
      · exact (not_lt.mp hlt).trans ((List.sorted_cons.mp hx).1 b hmem')
    · exact hy.1 b hmem

/-! Step lemmas: one unfolding of the merge loop per reachable shape. -/

lemma go_exit {c1 c2 fuel lock p1 p2 iters : Nat} {l r : Line}
    {s1 s2 out : List Line} (h : ¬(p1 ≠ c1 ∧ p2 ≠ c2)) :
    mergeLoopGo c1 c2 (fuel + 1) lock p1 p2 iters l r s1 s2 out =
      .ok ⟨out, lock, p1, p2, iters, l, r, s1, s2⟩ := by
  simp only [mergeLoopGo, if_neg h]

lemma go_step0 {c1 c2 fuel p1 p2 iters : Nat} {l r x y : Line}
    {s1 s2 out : List Line} (h1 : p1 ≠ c1) (h2 : p2 ≠ c2) :
    mergeLoopGo c1 c2 (fuel + 1) 0 p1 p2 iters l r (x :: s1) (y :: s2) out =
      if x < y then
        mergeLoopGo c1 c2 fuel 2 (p1 + 1) p2 (iters + 1) x y s1 s2 (out ++ [print x])
      else
        mergeLoopGo c1 c2 fuel 1 p1 (p2 + 1) (iters + 1) x y s1 s2 (out ++ [print y]) := by
  by_cases hl : x < y <;> simp [mergeLoopGo, readPhase, cmp_lock, h1, h2, hl]

lemma go_step1 {c1 c2 fuel p1 p2 iters : Nat} {l r y : Line}
    {s1 s2 out : List Line} (h1 : p1 ≠ c1) (h2 : p2 ≠ c2) :
    mergeLoopGo c1 c2 (fuel + 1) 1 p1 p2 iters l r s1 (y :: s2) out =
      if l < y then
        mergeLoopGo c1 c2 fuel 2 (p1 + 1) p2 (iters + 1) l y s1 s2 (out ++ [print l])
      else
        mergeLoopGo c1 c2 fuel 1 p1 (p2 + 1) (iters + 1) l y s1 s2 (out ++ [print y]) := by
  by_cases hl : l < y <;> simp [mergeLoopGo, readPhase, cmp_lock, h1, h2, hl]

lemma go_step2 {c1 c2 fuel p1 p2 iters : Nat} {l r x : Line}
    {s1 s2 out : List Line} (h1 : p1 ≠ c1) (h2 : p2 ≠ c2) :
    mergeLoopGo c1 c2 (fuel + 1) 2 p1 p2 iters l r (x :: s1) s2 out =
      if x < r then
        mergeLoopGo c1 c2 fuel 2 (p1 + 1) p2 (iters + 1) x r s1 s2 (out ++ [print x])
      else
        mergeLoopGo c1 c2 fuel 1 p1 (p2 + 1) (iters + 1) x r s1 s2 (out ++ [print r]) := by
  by_cases hl : x < r <;> simp [mergeLoopGo, readPhase, cmp_lock, h1, h2, hl]

lemma go_err0a {c1 c2 fuel p1 p2 iters : Nat} {l r : Line}
    {s2 out : List Line} (h1 : p1 ≠ c1) (h2 : p2 ≠ c2) :
    mergeLoopGo c1 c2 (fuel + 1) 0 p1 p2 iters l r [] s2 out =
      .error (out, readErrMsg) := by
  simp [mergeLoopGo, readPhase, h1, h2]

lemma go_err0b {c1 c2 fuel p1 p2 iters : Nat} {l r x : Line}
    {s1 out : List Line} (h1 : p1 ≠ c1) (h2 : p2 ≠ c2) :
    mergeLoopGo c1 c2 (fuel + 1) 0 p1 p2 iters l r (x :: s1) [] out =
      .error (out, readErrMsg) := by
  simp [mergeLoopGo, readPhase, h1, h2]

lemma go_err1 {c1 c2 fuel p1 p2 iters : Nat} {l r : Line}
    {s1 out : List Line} (h1 : p1 ≠ c1) (h2 : p2 ≠ c2) :
    mergeLoopGo c1 c2 (fuel + 1) 1 p1 p2 iters l r s1 [] out =
      .error (out, readErrMsg) := by
  simp [mergeLoopGo, readPhase, h1, h2]

lemma go_err2 {c1 c2 fuel p1 p2 iters : Nat} {l r : Line}
    {s2 out : List Line} (h1 : p1 ≠ c1) (h2 : p2 ≠ c2) :
    mergeLoopGo c1 c2 (fuel + 1) 2 p1 p2 iters l r [] s2 out =
      .error (out, readErrMsg) := by
  simp [mergeLoopGo, readPhase, h1, h2]

lemma runFrom_exit {c1 c2 fuel lock p1 p2 iters : Nat} {l r : Line}
    {s1 s2 out : List Line} (h : ¬(p1 ≠ c1 ∧ p2 ≠ c2)) :
    runFrom c1 c2 (fuel + 1) lock p1 p2 iters l r s1 s2 out =
      mergePost c1 c2 ⟨out, lock, p1, p2, iters, l, r, s1, s2⟩ := by
  simp [runFrom, go_exit h]

lemma runFrom_step0 {c1 c2 fuel p1 p2 iters : Nat} {l r x y : Line}
    {s1 s2 out : List Line} (h1 : p1 ≠ c1) (h2 : p2 ≠ c2) :
    runFrom c1 c2 (fuel + 1) 0 p1 p2 iters l r (x :: s1) (y :: s2) out =
      if x < y then
        runFrom c1 c2 fuel 2 (p1 + 1) p2 (iters + 1) x y s1 s2 (out ++ [print x])
      else
        runFrom c1 c2 fuel 1 p1 (p2 + 1) (iters + 1) x y s1 s2 (out ++ [print y]) := by
  by_cases hl : x < y <;> simp [runFrom, go_step0 h1 h2, hl]

lemma runFrom_step1 {c1 c2 fuel p1 p2 iters : Nat} {l r y : Line}
    {s1 s2 out : List Line} (h1 : p1 ≠ c1) (h2 : p2 ≠ c2) :
    runFrom c1 c2 (fuel + 1) 1 p1 p2 iters l r s1 (y :: s2) out =
      if l < y then
        runFrom c1 c2 fuel 2 (p1 + 1) p2 (iters + 1) l y s1 s2 (out ++ [print l])
      else
        runFrom c1 c2 fuel 1 p1 (p2 + 1) (iters + 1) l y s1 s2 (out ++ [print y]) := by
  by_cases hl : l < y <;> simp [runFrom, go_step1 h1 h2, hl]

lemma runFrom_step2 {c1 c2 fuel p1 p2 iters : Nat} {l r x : Line}
    {s1 s2 out : List Line} (h1 : p1 ≠ c1) (h2 : p2 ≠ c2) :
    runFrom c1 c2 (fuel + 1) 2 p1 p2 iters l r (x :: s1) s2 out =
      if x < r then
        runFrom c1 c2 fuel 2 (p1 + 1) p2 (iters + 1) x r s1 s2 (out ++ [print x])
      else
        runFrom c1 c2 fuel 1 p1 (p2 + 1) (iters + 1) x r s1 s2 (out ++ [print r]) := by
  by_cases hl : x < r <;> simp [runFrom, go_step2 h1 h2, hl]

lemma runFrom_err0a {c1 c2 fuel p1 p2 iters : Nat} {l r : Line}
    {s2 out : List Line} (h1 : p1 ≠ c1) (h2 : p2 ≠ c2) :
    runFrom c1 c2 (fuel + 1) 0 p1 p2 iters l r [] s2 out =
      ⟨out, some readErrMsg⟩ := by
  simp [runFrom, go_err0a h1 h2]

lemma runFrom_err0b {c1 c2 fuel p1 p2 iters : Nat} {l r x : Line}
    {s1 out : List Line} (h1 : p1 ≠ c1) (h2 : p2 ≠ c2) :
    runFrom c1 c2 (fuel + 1) 0 p1 p2 iters l r (x :: s1) [] out =
      ⟨out, some readErrMsg⟩ := by
  simp [runFrom, go_err0b h1 h2]

lemma runFrom_err1 {c1 c2 fuel p1 p2 iters : Nat} {l r : Line}
    {s1 out : List Line} (h1 : p1 ≠ c1) (h2 : p2 ≠ c2) :
    runFrom c1 c2 (fuel + 1) 1 p1 p2 iters l r s1 [] out =
      ⟨out, some readErrMsg⟩ := by
  simp [runFrom, go_err1 h1 h2]

lemma runFrom_err2 {c1 c2 fuel p1 p2 iters : Nat} {l r : Line}
    {s2 out : List Line} (h1 : p1 ≠ c1) (h2 : p2 ≠ c2) :
    runFrom c1 c2 (fuel + 1) 2 p1 p2 iters l r [] s2 out =
      ⟨out, some readErrMsg⟩ := by
  simp [runFrom, go_err2 h1 h2]

/-! Drain lemmas. -/

lemma drain_all : ∀ (s : List Line) (out : List Line),
    drain s.length s out = ⟨out ++ s.map print, none⟩ := by
  intro s
  induction s with
  | nil => intro out; simp [drain]
  | cons x s ih => intro out; simp [drain, ih]

lemma drain_short : ∀ (k : Nat) (s : List Line), s.length < k → ∀ out : List Line,
    drain k s out = ⟨out ++ s.map print, some readErrMsg⟩ := by
  intro k
  induction k with
  | zero => intro s h; omega
  | succ k ih =>
    intro s h out
    cases s with
    | nil => simp [drain]
    | cons x s => simpa [drain] using ih s (by simpa using h) (out ++ [print x])

/-- Simulation of the merge loop against `refMerge`, from any reachable
mid-loop state. In state `lock = 1` the `left` variable holds the buffered
left line and `p1 + 1 + |s1| = c1` lines of side 1 are still unemitted
(`p1` emitted, one buffered, `|s1|` unread); symmetrically for `lock = 2`.
No sortedness is needed: the loop and `refMerge` make identical
comparisons. -/
lemma runFrom_sim (c1 c2 : Nat) : ∀ (fuel : Nat) (s1 s2 : List Line)
    (p1 p2 iters : Nat) (l r : Line) (out : List Line),
    s1.length + s2.length < fuel →
    (p1 + 1 + s1.length = c1 → p2 + s2.length = c2 →
      runFrom c1 c2 fuel 1 p1 p2 iters l r s1 s2 out =
        ⟨out ++ (refMerge (l :: s1) s2).map print, none⟩) ∧
    (p1 + s1.length = c1 → p2 + 1 + s2.length = c2 →
      runFrom c1 c2 fuel 2 p1 p2 iters l r s1 s2 out =
        ⟨out ++ (refMerge s1 (r :: s2)).map print, none⟩) := by
  intro fuel
  induction fuel with
  | zero => intro s1 s2 p1 p2 iters l r out h; omega
  | succ fuel ih =>
    intro s1 s2 p1 p2 iters l r out hfuel
    constructor
    · intro h1 h2
      rcases s2 with _ | ⟨y, s2⟩
      · -- right side exhausted: p2 = c2, the loop exits
        rw [runFrom_exit (by simp at h2; omega)]
        simp only [mergePost, drainPhase]
        by_cases hc : p1 + 1 = c1
        · have hs1 : s1 = [] := by
            have : s1.length = 0 := by omega
            simpa [List.length_eq_zero] using this
          subst hs1
          simp [refMerge, hc, show p2 = c2 by simp at h2; omega]
        · rw [if_pos (by omega), show c1 - (p1 + 1) = s1.length from by omega,
            drain_all]
          simp [refMerge]
      · -- read one line from the right, compare with the buffered left line
        rw [runFrom_step1 (show p1 ≠ c1 by omega) (show p2 ≠ c2 by simp at h2; omega)]
        by_cases hl : l < y
        · rw [if_pos hl,
            ((ih s1 s2 (p1 + 1) p2 (iters + 1) l y (out ++ [print l])
              (by simp at hfuel ⊢; omega)).2 (by omega) (by simp at h2 ⊢; omega))]
          simp [refMerge, hl]
        · rw [if_neg hl,
            ((ih s1 s2 p1 (p2 + 1) (iters + 1) l y (out ++ [print y])
              (by simp at hfuel ⊢; omega)).1 (by omega) (by simp at h2 ⊢; omega))]
          simp [refMerge, hl]
    · intro h1 h2
      rcases s1 with _ | ⟨x, s1⟩
      · -- left side exhausted: p1 = c1, the loop exits
        rw [runFrom_exit (by simp at h1; omega)]
        simp only [mergePost, drainPhase]
        by_cases hc : p2 + 1 = c2
        · have hs2 : s2 = [] := by
            have : s2.length = 0 := by omega
            simpa [List.length_eq_zero] using this
          subst hs2
          simp [refMerge, hc, show p1 = c1 by simp at h1; omega]
        · rw [if_neg (by simp at h1; omega), if_pos (by omega),
            show c2 - (p2 + 1) = s2.length from by omega, drain_all]
          simp [refMerge]
      · -- read one line from the left, compare with the buffered right line
        rw [runFrom_step2 (show p1 ≠ c1 by simp at h1; omega) (show p2 ≠ c2 by omega)]
        by_cases hl : x < r
        · rw [if_pos hl,
            ((ih s1 s2 (p1 + 1) p2 (iters + 1) x r (out ++ [print x])
              (by simp at hfuel ⊢; omega)).2 (by simp at h1 ⊢; omega) (by omega))]
          simp [refMerge, hl]
        · rw [if_neg hl,
            ((ih s1 s2 p1 (p2 + 1) (iters + 1) x r (out ++ [print r])
              (by simp at hfuel ⊢; omega)).1 (by simp at h1 ⊢; omega) (by omega))]
          simp [refMerge, hl]

/-- With exact stream lengths, the general merge loop computes exactly the
reference merge (each line passed through `print`) and ends successfully. -/
lemma generalMerge_eq {c1 c2 : Nat} {s1 s2 : List Line}
    (hc1 : 1 ≤ c1) (hc2 : 1 ≤ c2) (h1 : s1.length = c1) (h2 : s2.length = c2) :
    generalMerge c1 c2 s1 s2 = ⟨(refMerge s1 s2).map print, none⟩ := by
  rcases s1 with _ | ⟨x, s1⟩
  · simp at h1; omega
  rcases s2 with _ | ⟨y, s2⟩
  · simp at h2; omega
  show runFrom c1 c2 ((x :: s1).length + ((y :: s2).length) + 1) 0 0 0 0 [] []
    (x :: s1) (y :: s2) [] = _
  rw [show (x :: s1).length + ((y :: s2).length) + 1 =
    (s1.length + s2.length + 2) + 1 from by simp; omega]
  rw [runFrom_step0 (show (0 : Nat) ≠ c1 by omega) (show (0 : Nat) ≠ c2 by omega)]
  by_cases hl : x < y
  · rw [if_pos hl,
      ((runFrom_sim c1 c2 (s1.length + s2.length + 2) s1 s2 1 0 1 x y
        ([] ++ [print x]) (by omega)).2 (by simp at h1 ⊢; omega)
        (by simp at h2 ⊢; omega))]
    simp [refMerge, hl]
  · rw [if_neg hl,
      ((runFrom_sim c1 c2 (s1.length + s2.length + 2) s1 s2 0 1 1 x y
        ([] ++ [print y]) (by omega)).1 (by simp at h1 ⊢; omega)
        (by simp at h2 ⊢; omega))]
    simp [refMerge, hl]

/-- `mergesort` (special case included) computes the reference merge. -/
lemma mergesort_eq {c1 c2 : Nat} {s1 s2 : List Line}
    (hc1 : 1 ≤ c1) (hc2 : 1 ≤ c2) (h1 : s1.length = c1) (h2 : s2.length = c2) :
    mergesort c1 c2 s1 s2 = ⟨(refMerge s1 s2).map print, none⟩ := by
  by_cases hs : c1 = 1 ∧ c2 = 1
  · obtain ⟨e1, e2⟩ := hs
    subst e1; subst e2
    obtain ⟨x, rfl⟩ := List.length_eq_one.mp h1
    obtain ⟨y, rfl⟩ := List.length_eq_one.mp h2
    by_cases hl : x < y <;> simp [mergesort, refMerge, hl]
  · unfold mergesort
    rw [if_neg hs]
    exact generalMerge_eq hc1 hc2 h1 h2

/-- The `count1 == count2 == 1` special case of `mergesort` behaves exactly
like the general loop would on the same streams, for every pair of streams
(also the degenerate ones on which both paths die in `readline`). -/
lemma mergesort_one_one (s1 s2 : List Line) :
    mergesort 1 1 s1 s2 = generalMerge 1 1 s1 s2 := by
  rcases s1 with _ | ⟨x, s1⟩
  · show _ = runFrom 1 1 (([] : List Line).length + s2.length + 1) 0 0 0 0 [] []
      [] s2 []
    rw [show ([] : List Line).length + s2.length + 1 = s2.length + 1 from by simp]
    rw [runFrom_err0a (show (0 : Nat) ≠ 1 by omega) (show (0 : Nat) ≠ 1 by omega)]
    simp [mergesort]
  rcases s2 with _ | ⟨y, s2⟩
  · show _ = runFrom 1 1 ((x :: s1).length + ([] : List Line).length + 1) 0 0 0 0
      [] [] (x :: s1) [] []
    rw [show (x :: s1).length + ([] : List Line).length + 1 = (s1.length + 1) + 1
      from by simp]
    rw [runFrom_err0b (show (0 : Nat) ≠ 1 by omega) (show (0 : Nat) ≠ 1 by omega)]
    simp [mergesort]
  · show _ = runFrom 1 1 ((x :: s1).length + ((y :: s2).length) + 1) 0 0 0 0 [] []
      (x :: s1) (y :: s2) []
    rw [show (x :: s1).length + ((y :: s2).length) + 1 =
      (s1.length + s2.length + 1 + 1) + 1 from by simp; omega]
    rw [runFrom_step0 (show (0 : Nat) ≠ 1 by omega) (show (0 : Nat) ≠ 1 by omega)]
    by_cases hl : x < y
    · rw [if_pos hl, runFrom_exit (by omega)]
      simp [mergesort, mergePost, drainPhase, hl]
    · rw [if_neg hl, runFrom_exit (by omega)]
      simp [mergesort, mergePost, drainPhase, hl]

/-- Lock invariant of the merge loop: started in lock 1 with side 1's counter
still short of its total (or lock 2 with side 2 short), any normal loop exit
has the lock naming the side whose counter has not reached its total, while
the other side's counter has. No stream-length or sortedness hypotheses. -/
lemma go_lock_inv (c1 c2 : Nat) : ∀ (fuel : Nat) (s1 s2 : List Line)
    (p1 p2 iters : Nat) (l r : Line) (out : List Line) (e : LoopExit),
    (mergeLoopGo c1 c2 fuel 1 p1 p2 iters l r s1 s2 out = .ok e → p1 ≠ c1 →
      (e.lock = 1 ∧ e.p2 = c2 ∧ e.p1 ≠ c1) ∨ (e.lock = 2 ∧ e.p1 = c1 ∧ e.p2 ≠ c2)) ∧
    (mergeLoopGo c1 c2 fuel 2 p1 p2 iters l r s1 s2 out = .ok e → p2 ≠ c2 →
      (e.lock = 1 ∧ e.p2 = c2 ∧ e.p1 ≠ c1) ∨ (e.lock = 2 ∧ e.p1 = c1 ∧ e.p2 ≠ c2)) := by
  intro fuel
  induction fuel with
  | zero =>
    intro s1 s2 p1 p2 iters l r out e
    constructor <;> intro hok <;> simp [mergeLoopGo] at hok
  | succ fuel ih =>
    intro s1 s2 p1 p2 iters l r out e
    constructor
    · intro hok hp1
      by_cases hp2 : p2 = c2
      · rw [go_exit (by omega)] at hok
        obtain rfl := Except.ok.inj hok
        exact Or.inl ⟨rfl, hp2, hp1⟩
      · rcases s2 with _ | ⟨y, s2⟩
        · rw [go_err1 hp1 hp2] at hok; simp at hok
        · rw [go_step1 hp1 hp2] at hok
          by_cases hl : l < y
          · rw [if_pos hl] at hok
            exact (ih s1 s2 (p1 + 1) p2 (iters + 1) l y (out ++ [print l]) e).2 hok hp2
          · rw [if_neg hl] at hok
            exact (ih s1 s2 p1 (p2 + 1) (iters + 1) l y (out ++ [print y]) e).1 hok hp1
    · intro hok hp2
      by_cases hp1 : p1 = c1
      · rw [go_exit (by omega)] at hok
        obtain rfl := Except.ok.inj hok
        exact Or.inr ⟨rfl, hp1, hp2⟩
      · rcases s1 with _ | ⟨x, s1⟩
        · rw [go_err2 hp1 hp2] at hok; simp at hok
        · rw [go_step2 hp1 hp2] at hok
          by_cases hl : x < r
          · rw [if_pos hl] at hok
            exact (ih s1 s2 (p1 + 1) p2 (iters + 1) x r (out ++ [print x]) e).2 hok hp2
          · rw [if_neg hl] at hok
            exact (ih s1 s2 p1 (p2 + 1) (iters + 1) x r (out ++ [print r]) e).1 hok hp1

/-- If, from a reachable mid-loop state, a side still owes more lines than
its stream can deliver, the run dies in `readline` (either inside the loop
or in the final drain). In lock 1, side 1 owes `c1 - p1 - 1` reads and
side 2 owes `c2 - p2`; symmetrically in lock 2. -/
lemma runFrom_short (c1 c2 : Nat) : ∀ (fuel : Nat) (s1 s2 : List Line)
    (p1 p2 iters : Nat) (l r : Line) (out : List Line),
    s1.length + s2.length < fuel →
    ((p1 < c1 → p2 ≤ c2 → (s1.length + 1 + p1 < c1 ∨ s2.length + p2 < c2) →
      (runFrom c1 c2 fuel 1 p1 p2 iters l r s1 s2 out).err = some readErrMsg) ∧
     (p1 ≤ c1 → p2 < c2 → (s1.length + p1 < c1 ∨ s2.length + 1 + p2 < c2) →
      (runFrom c1 c2 fuel 2 p1 p2 iters l r s1 s2 out).err = some readErrMsg)) := by
  intro fuel
  induction fuel with
  | zero => intro s1 s2 p1 p2 iters l r out h; omega
  | succ fuel ih =>
    intro s1 s2 p1 p2 iters l r out hfuel
    constructor
    · intro hp1 hp2 hshort
      by_cases hc : p2 = c2
      · rw [runFrom_exit (by omega)]
        have h1lt : s1.length + 1 + p1 < c1 := by omega
        simp only [mergePost, drainPhase]
        rw [if_pos (by omega : ¬(p1 + 1 = c1)), drain_short _ _ (by omega)]
      · rcases s2 with _ | ⟨y, s2⟩
        · rw [runFrom_err1 (by omega) hc]
        · rw [runFrom_step1 (by omega) hc]
          by_cases hl : l < y
          · rw [if_pos hl]
            exact (ih s1 s2 (p1 + 1) p2 (iters + 1) l y (out ++ [print l])
              (by simp at hfuel ⊢; omega)).2 (by omega) (by omega)
              (by simp at hshort ⊢; omega)
          · rw [if_neg hl]
            exact (ih s1 s2 p1 (p2 + 1) (iters + 1) l y (out ++ [print y])
              (by simp at hfuel ⊢; omega)).1 (by omega) (by omega)
              (by simp at hshort ⊢; omega)
    · intro hp1 hp2 hshort
      by_cases hc : p1 = c1
      · rw [runFrom_exit (by omega)]
        have h2lt : s2.length + 1 + p2 < c2 := by omega
        simp only [mergePost, drainPhase]
        rw [if_neg (by omega : ¬(p1 ≠ c1)), if_pos (by omega : ¬(p2 + 1 = c2)),
          drain_short _ _ (by omega)]
      · rcases s1 with _ | ⟨x, s1⟩
        · rw [runFrom_err2 hc (by omega)]
        · rw [runFrom_step2 hc (by omega)]
          by_cases hl : x < r
          · rw [if_pos hl]
            exact (ih s1 s2 (p1 + 1) p2 (iters + 1) x r (out ++ [print x])
              (by simp at hfuel ⊢; omega)).2 (by omega) (by omega)
              (by simp at hshort ⊢; omega)
          · rw [if_neg hl]
            exact (ih s1 s2 p1 (p2 + 1) (iters + 1) x r (out ++ [print r])
              (by simp at hfuel ⊢; omega)).1 (by omega) (by omega)
              (by simp at hshort ⊢; omega)

/-- From a reachable mid-loop state with both streams holding at least the
lines still owed, the loop exits normally; each iteration emitted exactly
one line and bumped exactly one counter (cumulatively: the output grew by
the iteration count, and so did `p1 + p2`), and at exit the side named by
the lock is strictly below its total while the other side has reached it. -/
lemma go_ok (c1 c2 : Nat) : ∀ (fuel : Nat) (s1 s2 : List Line)
    (p1 p2 iters : Nat) (l r : Line) (out : List Line),
    s1.length + s2.length < fuel →
    ((p1 < c1 → p2 ≤ c2 → c1 ≤ p1 + 1 + s1.length → c2 ≤ p2 + s2.length →
      ∃ e : LoopExit, mergeLoopGo c1 c2 fuel 1 p1 p2 iters l r s1 s2 out = .ok e ∧
        ((e.p1 < c1 ∧ e.p2 = c2) ∨ (e.p1 = c1 ∧ e.p2 < c2)) ∧
        e.p1 + e.p2 + iters = p1 + p2 + e.iters ∧
        e.out.length + iters = out.length + e.iters) ∧
     (p1 ≤ c1 → p2 < c2 → c1 ≤ p1 + s1.length → c2 ≤ p2 + 1 + s2.length →
      ∃ e : LoopExit, mergeLoopGo c1 c2 fuel 2 p1 p2 iters l r s1 s2 out = .ok e ∧
        ((e.p1 < c1 ∧ e.p2 = c2) ∨ (e.p1 = c1 ∧ e.p2 < c2)) ∧
        e.p1 + e.p2 + iters = p1 + p2 + e.iters ∧
        e.out.length + iters = out.length + e.iters)) := by
  intro fuel
  induction fuel with
  | zero => intro s1 s2 p1 p2 iters l r out h; omega
  | succ fuel ih =>
    intro s1 s2 p1 p2 iters l r out hfuel
    constructor
    · intro hp1 hp2 hn1 hn2
      by_cases hc : p2 = c2
      · exact ⟨⟨out, 1, p1, p2, iters, l, r, s1, s2⟩, go_exit (by omega),
          Or.inl ⟨hp1, hc⟩, by simp, by simp⟩
      · rcases s2 with _ | ⟨y, s2⟩
        · exfalso; simp at hn2; omega
        · by_cases hl : l < y
          · obtain ⟨e, hok, hdis, hit, hout⟩ :=
              (ih s1 s2 (p1 + 1) p2 (iters + 1) l y (out ++ [print l])
                (by simp at hfuel ⊢; omega)).2 (by omega) (by omega) (by omega)
                (by simp at hn2 ⊢; omega)
            exact ⟨e, by rw [go_step1 (by omega) hc, if_pos hl]; exact hok, hdis,
              by omega, by simp at hout ⊢; omega⟩
          · obtain ⟨e, hok, hdis, hit, hout⟩ :=
              (ih s1 s2 p1 (p2 + 1) (iters + 1) l y (out ++ [print y])
                (by simp at hfuel ⊢; omega)).1 (by omega) (by omega) (by omega)
                (by simp at hn2 ⊢; omega)
            exact ⟨e, by rw [go_step1 (by omega) hc, if_neg hl]; exact hok, hdis,
              by omega, by simp at hout ⊢; omega⟩
    · intro hp1 hp2 hn1 hn2
      by_cases hc : p1 = c1
      · exact ⟨⟨out, 2, p1, p2, iters, l, r, s1, s2⟩, go_exit (by omega),
          Or.inr ⟨hc, hp2⟩, by simp, by simp⟩
      · rcases s1 with _ | ⟨x, s1⟩
        · exfalso; simp at hn1; omega
        · by_cases hl : x < r
          · obtain ⟨e, hok, hdis, hit, hout⟩ :=
              (ih s1 s2 (p1 + 1) p2 (iters + 1) x r (out ++ [print x])
                (by simp at hfuel ⊢; omega)).2 (by omega) (by omega)
                (by simp at hn1 ⊢; omega) (by omega)
            exact ⟨e, by rw [go_step2 hc (by omega), if_pos hl]; exact hok, hdis,
              by omega, by simp at hout ⊢; omega⟩
          · obtain ⟨e, hok, hdis, hit, hout⟩ :=
              (ih s1 s2 p1 (p2 + 1) (iters + 1) x r (out ++ [print r])
                (by simp at hfuel ⊢; omega)).1 (by omega) (by omega)
                (by simp at hn1 ⊢; omega) (by omega)
            exact ⟨e, by rw [go_step2 hc (by omega), if_neg hl]; exact hok, hdis,
              by omega, by simp at hout ⊢; omega⟩

/-- On a line already carrying its terminator, `print` writes it back
unchanged. -/
lemma print_eq_self {x : Line} (h : x.getLast? = some '\n') : print x = x := by
  have hne : x ≠ [] := by intro h0; subst h0; simp at h
  simp only [print, stripNL, if_pos h]
  conv_rhs => rw [← List.dropLast_append_getLast hne]
  have hg : x.getLast hne = '\n' := by
    rw [List.getLast?_eq_getLast x hne] at h
    simpa using h
  rw [hg]

/-! Claim theorems. -/

/-- C1. For every pair of input streams that are each sorted in
non-decreasing lexicographic order, consist of terminated lines, and contain
exactly `count1 >= 1` and `count2 >= 1` lines respectively, the Stream Merger
(`mergesort` over `cmp_lock`) succeeds and emits a sequence that is a
permutation of the multiset union of the two streams, in non-decreasing
lexicographic order. -/
theorem merger_sorted_permutation (c1 c2 : Nat) (s1 s2 : List Line)
    (hc1 : 1 ≤ c1) (hc2 : 1 ≤ c2) (h1 : s1.length = c1) (h2 : s2.length = c2)
    (hnl : ∀ x ∈ s1 ++ s2, x.getLast? = some '\n')
    (hs1 : s1.Sorted (· ≤ ·)) (hs2 : s2.Sorted (· ≤ ·)) :
    (mergesort c1 c2 s1 s2).err = none ∧
    (mergesort c1 c2 s1 s2).out.Perm (s1 ++ s2) ∧
    (mergesort c1 c2 s1 s2).out.Sorted (· ≤ ·) := by
  rw [mergesort_eq hc1 hc2 h1 h2]
  have hperm := refMerge_perm s1 s2
  have hmap : (refMerge s1 s2).map print = refMerge s1 s2 := by
    conv_rhs => rw [← List.map_id (refMerge s1 s2)]
    exact List.map_congr_left fun x hx => print_eq_self (hnl x (hperm.mem_iff.mp hx))
  refine ⟨rfl, ?_, ?_⟩
  · simpa [hmap] using hperm
  · simpa [hmap] using refMerge_sorted s1 s2 hs1 hs2

theorem merger_sorted_permutation_witness :
    (mergesort 2 1 ["a\n".data, "c\n".data] ["b\n".data]).err = none ∧
    (mergesort 2 1 ["a\n".data, "c\n".data] ["b\n".data]).out.Perm
      (["a\n".data, "c\n".data] ++ ["b\n".data]) ∧
    (mergesort 2 1 ["a\n".data, "c\n".data] ["b\n".data]).out.Sorted (· ≤ ·) :=
  merger_sorted_permutation 2 1 ["a\n".data, "c\n".data] ["b\n".data]
    (by decide) (by decide) (by decide) (by decide) (by decide) (by decide)
    (by decide)

/-- C2 counterexample. On a three-line input the first child receives 1 line,
not `ceil(3/2) = 2` as claimed: `main` feeds the first child
`numlines / 2` lines. -/
theorem split_first_half_not_ceil :
    (splitLines ["A\n".data, "B\n".data, "C\n".data]).1.length = 1 ∧
    (["A\n".data, "B\n".data, "C\n".data] : List Line).length = 3 ∧
    (1 : Nat) ≠ (3 + 1) / 2 := by
  decide

/-- C2 amended. For every ingested Line Sequence of size `N >= 2`, the
Splitter hands the first child a contiguous prefix of size `floor(N/2)` and
the second child the remaining contiguous suffix of size `ceil(N/2)`,
preserving original relative order within each half. -/
theorem split_halves (lines : List Line) (h : 2 ≤ lines.length) :
    (splitLines lines).1.length = lines.length / 2 ∧
    (splitLines lines).2.length = (lines.length + 1) / 2 ∧
    (splitLines lines).1 ++ (splitLines lines).2 = lines := by
  refine ⟨?_, ?_, ?_⟩
  · simp [splitLines]
    omega
  · simp [splitLines]
    omega
  · simp [splitLines]

theorem split_halves_witness :
    (splitLines ["x\n".data, "y\n".data, "z\n".data]).1.length = 3 / 2 ∧
    (splitLines ["x\n".data, "y\n".data, "z\n".data]).2.length = (3 + 1) / 2 ∧
    (splitLines ["x\n".data, "y\n".data, "z\n".data]).1 ++
      (splitLines ["x\n".data, "y\n".data, "z\n".data]).2 =
      ["x\n".data, "y\n".data, "z\n".data] := by
  have := split_halves ["x\n".data, "y\n".data, "z\n".data] (by decide)
  simpa using this

/-- C3. The code has no `N = 0` base case: on an empty ingested sequence the
process splits `[]` into `[]` and `[]` and recurses into two children with
the same empty input, so no recursion depth suffices for a result — the
program never terminates successfully with empty output, contradicting the
claimed behavior. -/
theorem empty_input_never_succeeds : ∀ fuel : Nat, forksortRun fuel [] = none := by
  intro fuel
  induction fuel with
  | zero => rfl
  | succ fuel ih => simp [forksortRun, splitLines, ih]

/-- C4 counterexample. The `N = 1` base case emits the stored line verbatim
via `fprintf(stdout, "%s", lines[0])`: a sole input line lacking its
terminator is written without any terminator. -/
theorem single_line_not_reterminated :
    forksortRun 1 ["A".data] = some ⟨["A".data], none⟩ ∧
    ("A".data : Line).getLast? ≠ some '\n' :=
  ⟨rfl, by decide⟩

/-- C4 amended. Every line written through `print` (all merger and drain
output) is terminated by exactly one line terminator, regardless of whether
the line carried one, provided the line has no interior terminator (as is
true of every `getline` result); the `N = 1` base case instead emits the
stored line verbatim, without re-termination. -/
theorem print_single_terminator (s l : Line) (h : '\n' ∉ s.dropLast) :
    (print s).getLast? = some '\n' ∧ (print s).count '\n' = 1 ∧
    forksortRun 1 [l] = some ⟨[l], none⟩ := by
  refine ⟨by simp [print, List.getLast?_concat], ?_, rfl⟩
  simp only [print, stripNL]
  by_cases hl : s.getLast? = some '\n'
  · rw [if_pos hl, List.count_append]
    simp [List.count_eq_zero.mpr h]
  · rw [if_neg hl, List.count_append]
    have hs : '\n' ∉ s := by
      intro hmem
      rcases List.eq_nil_or_concat s with rfl | ⟨l2, a, rfl⟩
      · simp at hmem
      · simp only [List.concat_eq_append] at hmem h hl
        simp only [List.dropLast_concat] at h
        simp only [List.getLast?_concat] at hl
        rcases List.mem_append.mp hmem with hm | hm
        · exact h hm
        · apply hl
          have ha : '\n' = a := by simpa using hm
          rw [← ha]
    simp [List.count_eq_zero.mpr hs]

theorem print_single_terminator_witness :
    (print "AB".data).getLast? = some '\n' ∧ (print "AB".data).count '\n' = 1 ∧
    forksortRun 1 ["Z\n".data] = some ⟨["Z\n".data], none⟩ :=
  print_single_terminator "AB".data "Z\n".data (by decide)

/-- C5. The special-cased base merge (`count1 == count2 == 1`: read one line
from each side, compare once, emit in order) produces exactly the same
result as running the general state-machine merge loop on the same two
streams — also on malformed streams, where both die identically in
`readline`. -/
theorem base_merge_refines_general (s1 s2 : List Line) :
    mergesort 1 1 s1 s2 = generalMerge 1 1 s1 s2 :=
  mergesort_one_one s1 s2

/-- C6. Under `count1 >= 1`, `count2 >= 1` and not both equal to 1, whenever
the general merge loop exits normally, the lock is 1 or 2 — never 0, so the
`error_exit` branch for `lock == 0` in the post-loop switch is unreachable —
and the buffered line belongs to the side whose counter has not reached its
total, the other side's counter having reached it. -/
theorem loop_exit_lock_nonzero (c1 c2 fuel : Nat) (s1 s2 : List Line)
    (e : LoopExit) (hc1 : 1 ≤ c1) (hc2 : 1 ≤ c2) (hns : ¬(c1 = 1 ∧ c2 = 1))
    (hok : mergeLoopGo c1 c2 fuel 0 0 0 0 [] [] s1 s2 [] = .ok e) :
    (e.lock = 1 ∨ e.lock = 2) ∧
    (e.lock = 1 → e.p2 = c2 ∧ e.p1 ≠ c1) ∧
    (e.lock = 2 → e.p1 = c1 ∧ e.p2 ≠ c2) := by
  cases fuel with
  | zero => simp [mergeLoopGo] at hok
  | succ fuel =>
    rcases s1 with _ | ⟨x, s1⟩
    · rw [go_err0a (by omega) (by omega)] at hok; simp at hok
    rcases s2 with _ | ⟨y, s2⟩
    · rw [go_err0b (by omega) (by omega)] at hok; simp at hok
    rw [go_step0 (by omega) (by omega)] at hok
    have hconc : (e.lock = 1 ∧ e.p2 = c2 ∧ e.p1 ≠ c1) ∨
        (e.lock = 2 ∧ e.p1 = c1 ∧ e.p2 ≠ c2) := by
      by_cases hl : x < y
      · rw [if_pos hl] at hok
        exact (go_lock_inv c1 c2 fuel s1 s2 1 0 1 x y [print x] e).2 hok (by omega)
      · rw [if_neg hl] at hok
        exact (go_lock_inv c1 c2 fuel s1 s2 0 1 1 x y [print y] e).1 hok (by omega)
    omega

theorem loop_exit_lock_nonzero_witness :
    ((1 : Nat) = 1 ∨ (1 : Nat) = 2) ∧
    ((1 : Nat) = 1 → (1 : Nat) = 1 ∧ (1 : Nat) ≠ 2) ∧
    ((1 : Nat) = 2 → (1 : Nat) = 2 ∧ (1 : Nat) ≠ 1) := by
  exact loop_exit_lock_nonzero 2 1 4 ["A\n".data, "C\n".data] ["B\n".data]
    ⟨["A\n".data, "B\n".data], 1, 1, 1, 2, "C\n".data, "B\n".data, [], []⟩
    (by decide) (by decide) (by decide) rfl

/-- C7. If a side's stream ends before that side's promised count of lines
was delivered, the merger writes the `readline` diagnostic to stderr and
exits with `EXIT_FAILURE` (modelled by `err = some readErrMsg`) instead of
completing its output. -/
theorem short_stream_read_error (c1 c2 : Nat) (s1 s2 : List Line)
    (hc1 : 1 ≤ c1) (hc2 : 1 ≤ c2)
    (hshort : s1.length < c1 ∨ s2.length < c2) :
    (mergesort c1 c2 s1 s2).err = some readErrMsg := by
  by_cases hs : c1 = 1 ∧ c2 = 1
  · obtain ⟨e1, e2⟩ := hs
    subst e1; subst e2
    rcases s1 with _ | ⟨x, s1⟩
    · simp [mergesort]
    rcases s2 with _ | ⟨y, s2⟩
    · simp [mergesort]
    · simp only [List.length_cons] at hshort; omega
  · unfold mergesort
    rw [if_neg hs]
    rcases s1 with _ | ⟨x, s1⟩
    · show (runFrom c1 c2 (([] : List Line).length + s2.length + 1) 0 0 0 0 [] []
        [] s2 []).err = _
      rw [show ([] : List Line).length + s2.length + 1 = s2.length + 1 from by simp]
      rw [runFrom_err0a (by omega) (by omega)]
    rcases s2 with _ | ⟨y, s2⟩
    · show (runFrom c1 c2 ((x :: s1).length + ([] : List Line).length + 1) 0 0 0 0
        [] [] (x :: s1) [] []).err = _
      rw [show (x :: s1).length + ([] : List Line).length + 1 = (s1.length + 1) + 1
        from by simp]
      rw [runFrom_err0b (by omega) (by omega)]
    · show (runFrom c1 c2 ((x :: s1).length + ((y :: s2).length) + 1) 0 0 0 0 [] []
        (x :: s1) (y :: s2) []).err = _
      rw [show (x :: s1).length + ((y :: s2).length) + 1 =
        (s1.length + s2.length + 2) + 1 from by simp; omega]
      rw [runFrom_step0 (by omega) (by omega)]
      by_cases hl : x < y
      · rw [if_pos hl]
        exact (runFrom_short c1 c2 (s1.length + s2.length + 2) s1 s2 1 0 1 x y
          ([] ++ [print x]) (by omega)).2 (by omega) (by omega)
          (by simp at hshort; omega)
      · rw [if_neg hl]
        exact (runFrom_short c1 c2 (s1.length + s2.length + 2) s1 s2 0 1 1 x y
          ([] ++ [print y]) (by omega)).1 (by omega) (by omega)
          (by simp at hshort; omega)

theorem short_stream_read_error_witness :
    (mergesort 2 1 ["a\n".data] ["b\n".data]).err = some readErrMsg :=
  short_stream_read_error 2 1 ["a\n".data] ["b\n".data] (by decide) (by decide)
    (Or.inl (by decide))

/-- C8. On the worked example of the source comment — left stream
`AN`, `HE` with count 2, right stream `DO`, `HU`, `TH` with count 3 — the
merger emits exactly `AN`, `DO`, `HE`, `HU`, `TH`, each line re-terminated. -/
theorem merge_concrete_example :
    mergesort 2 3 ["AN\n".data, "HE\n".data]
      ["DO\n".data, "HU\n".data, "TH\n".data] =
      ⟨["AN\n".data, "DO\n".data, "HE\n".data, "HU\n".data, "TH\n".data],
        none⟩ := by
  decide

/-- C9. The ingestion loop stores `lines[numlines] = line` before checking
`numlines == arrlen`, so on the 11th input line the store happens at index
10 while the allocated capacity is still 10 (`STEPSIZE`): an out-of-bounds
store, recorded by the model's flag; after only 10 lines no such store has
happened. -/
theorem ingest_oob_at_eleven :
    (ingest 11).2.2 = true ∧ (ingest 10).2.2 = false := by
  decide

/-- C10. Under streams holding at least their promised counts (both at
least 1) and enough fuel, the general merge loop exits normally; the output
it accumulated has exactly one line per iteration, each iteration bumped
exactly one counter (so `p1 + p2` equals the iteration count), neither
counter exceeds its side's total, and the loop ran at most
`count1 + count2 - 1` iterations. -/
theorem loop_terminates_bounded (c1 c2 fuel : Nat) (s1 s2 : List Line)
    (hc1 : 1 ≤ c1) (hc2 : 1 ≤ c2) (hl1 : c1 ≤ s1.length) (hl2 : c2 ≤ s2.length)
    (hfuel : s1.length + s2.length < fuel) :
    ∃ e : LoopExit, mergeLoopGo c1 c2 fuel 0 0 0 0 [] [] s1 s2 [] = .ok e ∧
      e.out.length = e.iters ∧ e.p1 + e.p2 = e.iters ∧
      e.p1 ≤ c1 ∧ e.p2 ≤ c2 ∧ e.iters ≤ c1 + c2 - 1 := by
  cases fuel with
  | zero => omega
  | succ fuel =>
    rcases s1 with _ | ⟨x, s1⟩
    · exfalso; simp at hl1; omega
    rcases s2 with _ | ⟨y, s2⟩
    · exfalso; simp at hl2; omega
    rw [go_step0 (by omega) (by omega)]
    by_cases hl : x < y
    · obtain ⟨e, hok, hdis, hit, hout⟩ :=
        (go_ok c1 c2 fuel s1 s2 1 0 1 x y ([] ++ [print x])
          (by simp at hfuel ⊢; omega)).2 (by omega) (by omega)
          (by simp at hl1 ⊢; omega) (by simp at hl2 ⊢; omega)
      refine ⟨e, by rw [if_pos hl]; exact hok, ?_, by omega, by omega, by omega,
        by omega⟩
      simp at hout; omega
    · obtain ⟨e, hok, hdis, hit, hout⟩ :=
        (go_ok c1 c2 fuel s1 s2 0 1 1 x y ([] ++ [print y])
          (by simp at hfuel ⊢; omega)).1 (by omega) (by omega)
          (by simp at hl1 ⊢; omega) (by simp at hl2 ⊢; omega)
      refine ⟨e, by rw [if_neg hl]; exact hok, ?_, by omega, by omega, by omega,
        by omega⟩
      simp at hout; omega

theorem loop_terminates_bounded_witness :
    ∃ e : LoopExit, mergeLoopGo 1 1 3 0 0 0 0 [] [] ["a\n".data] ["b\n".data] []
      = .ok e ∧
      e.out.length = e.iters ∧ e.p1 + e.p2 = e.iters ∧
      e.p1 ≤ 1 ∧ e.p2 ≤ 1 ∧ e.iters ≤ 1 + 1 - 1 :=
  loop_terminates_bounded 1 1 3 ["a\n".data] ["b\n".data] (by decide) (by decide)
    (by decide) (by decide) (by decide)

